import Mathlib

/-!
Verification of the raytracer core.

A shallow embedding of the raytracer's geometric-optical pipeline
(vector/quaternion algebra, quadratic root finding, the four object
intersection solvers, camera ray generation, and the shading pipeline),
together with theorems settling the specification claims.

Modelling conventions, chosen once for the whole file:

* `f32` scalars are modelled by the inductive type `F`: a finite value is an
  exact rational (`F.val q`), and the special values NaN and the two
  infinities are explicit constructors.  Arithmetic follows the IEEE special
  value rules (NaN propagation, `0 / 0 = NaN`, division of a nonzero finite
  value by zero gives a signed infinity, `∞ - ∞ = NaN`, `∞ * 0 = NaN`).
  Finite arithmetic is exact: rounding is not modelled.  The claims settled
  here depend on control flow and on exact small-integer computations that
  incur no rounding in `f32`, not on rounding behaviour.
* There is a single rational zero, playing the role of IEEE `+0.0`; the sign
  of a zero never matters on the inputs considered here and `+0.0` is what
  the exact computations below produce (each `0` arises as a difference of
  equal values, which IEEE rounds to `+0.0`).  `is_sign_positive` therefore
  answers `true` on `F.val 0`, and `true` on `F.nan` (the Rust `f32::NAN`
  constant has a clear sign bit).
* The irrational functions (`sqrt`, `sin`, `cos`, `tan`, `powf`) and the
  float constants `PI` and `PI / 180` (used by `to_radians`) have no exact
  rational form; they are abstracted as the fields of a `RealOps` parameter
  threaded through the definitions that use them.  Theorems quantify over
  this parameter or instantiate it with concrete rational stand-ins whose
  values agree with `f32` on the (perfect-square) radicands that occur.
  The lift of `sqrt` to `F` hardcodes the two cases IEEE fixes exactly:
  `sqrt 0 = 0` and NaN on negative arguments.
* Numeric literals appearing in the source (`1e-7`, `2.2`) are modelled by
  the nearby exact rationals `1/10000000` and `11/5`; the handful of claims
  touching them never depends on the final bits of the `f32` constant.
* Debug assertions (`debug_assert!`) are compiled out in release builds and
  are modelled away; the functions below follow the release-build semantics.
-/

namespace RT

/-- Model of an `f32` scalar: an exact rational, NaN, or a signed infinity. -/
inductive F where
  | nan : F
  | inf : F
  | ninf : F
  | val : ℚ → F
deriving DecidableEq, Repr

namespace F

/-- IEEE negation. -/
def neg : F → F
  | nan => nan
  | inf => ninf
  | ninf => inf
  | val q => val (-q)

/-- IEEE addition: NaN propagates, opposite infinities give NaN. -/
def add : F → F → F
  | nan, _ => nan
  | _, nan => nan
  | inf, ninf => nan
  | ninf, inf => nan
  | inf, _ => inf
  | _, inf => inf
  | ninf, _ => ninf
  | _, ninf => ninf
  | val p, val q => val (p + q)

/-- IEEE subtraction, `a - b = a + (-b)`. -/
def sub (a b : F) : F := add a (neg b)

/-- IEEE multiplication: NaN propagates, `∞ * 0 = NaN`. -/
def mul : F → F → F
  | nan, _ => nan
  | _, nan => nan
  | inf, inf => inf
  | inf, ninf => ninf
  | ninf, inf => ninf
  | ninf, ninf => inf
  | inf, val q => if 0 < q then inf else if q < 0 then ninf else nan
  | val q, inf => if 0 < q then inf else if q < 0 then ninf else nan
  | ninf, val q => if 0 < q then ninf else if q < 0 then inf else nan
  | val q, ninf => if 0 < q then ninf else if q < 0 then inf else nan
  | val p, val q => val (p * q)

/-- IEEE division: `0 / 0 = NaN`, nonzero finite over zero is a signed
infinity (the zero of the model acts as `+0.0`), `∞ / ∞ = NaN`. -/
def div : F → F → F
  | nan, _ => nan
  | _, nan => nan
  | inf, inf => nan
  | inf, ninf => nan
  | ninf, inf => nan
  | ninf, ninf => nan
  | inf, val q => if 0 ≤ q then inf else ninf
  | ninf, val q => if 0 ≤ q then ninf else inf
  | val _, inf => val 0
  | val _, ninf => val 0
  | val p, val q =>
    if q = 0 then (if p = 0 then nan else if 0 < p then inf else ninf)
    else val (p / q)

/-- The square `x.powi(2)`, computed by the one multiplication Rust performs. -/
def sq (x : F) : F := mul x x

/-- IEEE strict less-than: false whenever an operand is NaN. -/
def flt : F → F → Bool
  | nan, _ => false
  | _, nan => false
  | inf, _ => false
  | _, inf => true
  | ninf, ninf => false
  | ninf, _ => true
  | _, ninf => false
  | val p, val q => p < q

/-- IEEE less-or-equal: false whenever an operand is NaN. -/
def fle : F → F → Bool
  | nan, _ => false
  | _, nan => false
  | _, inf => true
  | inf, _ => false
  | ninf, _ => true
  | _, ninf => false
  | val p, val q => p ≤ q

/-- IEEE strict greater-than. -/
def fgt (a b : F) : Bool := flt b a

/-- Rust `f32::is_sign_positive`: true on NaN (the `f32::NAN` constant has a
clear sign bit), `+∞`, and every nonnegative rational (the model's single
zero plays `+0.0`). -/
def isSignPositive : F → Bool
  | nan => true
  | inf => true
  | ninf => false
  | val q => 0 ≤ q

/-- Rust `f32::is_nan`. -/
def isNan : F → Bool
  | nan => true
  | _ => false

/-- Rust `f32::abs`. -/
def fabs : F → F
  | nan => nan
  | inf => inf
  | ninf => inf
  | val q => val |q|

/-- Rust `f32::signum`: `1.0` on positives, zero and `+∞`; `-1.0` on
negatives and `-∞`; NaN on NaN.  The model's zero acts as `+0.0`. -/
def signum : F → F
  | nan => nan
  | inf => val 1
  | ninf => val (-1)
  | val q => if q < 0 then val (-1) else val 1

/-- Three-way comparison of rationals. -/
def qcmp (p q : ℚ) : Ordering :=
  if p < q then .lt else if q < p then .gt else .eq

/-- Rust `f32::total_cmp` restricted to the values this program produces:
`-∞ < finite < +∞ < NaN` (only the positive-sign NaN of `f32::NAN` ever
reaches a comparison, and the model has a single zero). -/
def totalCmp : F → F → Ordering
  | nan, nan => .eq
  | nan, _ => .gt
  | _, nan => .lt
  | inf, inf => .eq
  | inf, _ => .gt
  | _, inf => .lt
  | ninf, ninf => .eq
  | ninf, _ => .lt
  | _, ninf => .gt
  | val p, val q => qcmp p q

end F

/-- Interpretation of the `f32` operations with no rational closed form:
the trigonometric functions, `powf`, and the constants `PI` and
`PI / 180` (the factor `to_radians` multiplies by). -/
structure RealOps where
  sqrt : ℚ → ℚ
  sin : ℚ → ℚ
  cos : ℚ → ℚ
  tan : ℚ → ℚ
  pw : ℚ → ℚ → ℚ
  pi : ℚ
  degRad : ℚ

namespace F

/-- IEEE square root on `F`: NaN on negative arguments and on `-∞`, exact
zero on zero, and the abstracted `sqrt` interpretation on positive
rationals. -/
def sqrtF (ops : RealOps) : F → F
  | nan => nan
  | inf => inf
  | ninf => nan
  | val q => if q < 0 then nan else if q = 0 then val 0 else val (ops.sqrt q)

/-- Lift of `sin` to `F`: NaN away from finite arguments. -/
def sinF (ops : RealOps) : F → F
  | val q => val (ops.sin q)
  | _ => nan

/-- Lift of `cos` to `F`: NaN away from finite arguments. -/
def cosF (ops : RealOps) : F → F
  | val q => val (ops.cos q)
  | _ => nan

/-- Lift of `tan` to `F`: NaN away from finite arguments. -/
def tanF (ops : RealOps) : F → F
  | val q => val (ops.tan q)
  | _ => nan

/-- Lift of `powf` to `F`; only finite base and exponent arise here. -/
def powF (ops : RealOps) : F → F → F
  | val a, val b => val (ops.pw a b)
  | _, _ => nan

/-- Rust `f32::to_radians`: multiplication by the constant `PI / 180`. -/
def toRad (ops : RealOps) (x : F) : F := mul x (val ops.degRad)

/-- Rust `f32::recip`: `1.0 / x`. -/
def frecip (x : F) : F := div (val 1) x

end F

/-- Euclidean 3D vector with `f32` components, from `maths/vector.rs`. -/
structure Vector where
  x : F
  y : F
  z : F
deriving DecidableEq, Repr

namespace Vector

/-- The zero vector. -/
def ZERO : Vector := ⟨.val 0, .val 0, .val 0⟩

/-- The unit vector along the x axis. -/
def X : Vector := ⟨.val 1, .val 0, .val 0⟩

/-- The unit vector along the y axis. -/
def Y : Vector := ⟨.val 0, .val 1, .val 0⟩

/-- The unit vector along the z axis. -/
def Z : Vector := ⟨.val 0, .val 0, .val 1⟩

/-- Componentwise vector addition. -/
def add (a b : Vector) : Vector := ⟨.add a.x b.x, .add a.y b.y, .add a.z b.z⟩

/-- Componentwise vector subtraction. -/
def sub (a b : Vector) : Vector := ⟨.sub a.x b.x, .sub a.y b.y, .sub a.z b.z⟩

/-- Scalar multiplication `v * s`, componentwise. -/
def smul (a : Vector) (s : F) : Vector := ⟨.mul a.x s, .mul a.y s, .mul a.z s⟩

/-- Scalar division `v / s`, componentwise. -/
def sdiv (a : Vector) (s : F) : Vector := ⟨.div a.x s, .div a.y s, .div a.z s⟩

/-- Vector negation; the source computes it as `self * -1.`. -/
def neg (a : Vector) : Vector := smul a (.val (-1))

/-- Dot product, summed left to right as in the source. -/
def dot (a b : Vector) : F :=
  .add (.add (.mul a.x b.x) (.mul a.y b.y)) (.mul a.z b.z)

/-- Cross product, by the standard determinant formula of the source. -/
def cross (a b : Vector) : Vector :=
  ⟨.sub (.mul a.y b.z) (.mul a.z b.y),
   .sub (.mul a.z b.x) (.mul a.x b.z),
   .sub (.mul a.x b.y) (.mul a.y b.x)⟩

/-- Squared magnitude `x.powi(2) + y.powi(2) + z.powi(2)`. -/
def magn2 (a : Vector) : F := .add (.add (.sq a.x) (.sq a.y)) (.sq a.z)

/-- Magnitude, the square root of `magn2`. -/
def magn (ops : RealOps) (a : Vector) : F := .sqrtF ops a.magn2

/-- Normalization `self / self.magn()`; on the zero vector every component
becomes `0.0 / 0.0 = NaN`. -/
def normalize (ops : RealOps) (a : Vector) : Vector := sdiv a (a.magn ops)

/-- Rust `f32::copysign(1.0, z)`: the unit with the sign of `z`.  NaN carries
a clear sign bit here (only `f32::NAN` arises) and the model's zero is
`+0.0`. -/
def copysignOne : F → F
  | .nan => .val 1
  | .inf => .val 1
  | .ninf => .val (-1)
  | .val q => if q < 0 then .val (-1) else .val 1

/-- Both vectors of the stable orthonormal-basis construction
(`any_orthonormal_pair`, after the Pixar paper), as in the source. -/
def anyOrthonormalPair (v : Vector) : Vector × Vector :=
  let sign := copysignOne v.z
  let a := F.div (.val (-1)) (.add sign v.z)
  let b := F.mul (F.mul v.x v.y) a
  (⟨b, .add sign (.mul (.sq v.y) a), .neg v.y⟩,
   ⟨.add (.val 1) (.mul (.mul sign (.sq v.x)) a), .mul sign b, .mul (.neg sign) v.x⟩)

/-- First vector of `any_orthonormal_pair`. -/
def anyOrthonormal (v : Vector) : Vector := v.anyOrthonormalPair.1

end Vector

/-- Position in 3D space, from `maths/point.rs`. -/
structure Point where
  x : F
  y : F
  z : F
deriving DecidableEq, Repr

namespace Point

/-- The origin. -/
def ORIGIN : Point := ⟨.val 0, .val 0, .val 0⟩

/-- `Point - Point`, producing the displacement `Vector`. -/
def sub (a b : Point) : Vector := ⟨.sub a.x b.x, .sub a.y b.y, .sub a.z b.z⟩

/-- `Point + Vector`. -/
def addV (a : Point) (v : Vector) : Point := ⟨.add a.x v.x, .add a.y v.y, .add a.z v.z⟩

/-- `Point - Vector`. -/
def subV (a : Point) (v : Vector) : Point := ⟨.sub a.x v.x, .sub a.y v.y, .sub a.z v.z⟩

end Point

/-- Quaternion with `f32` components, from `maths/quaternion.rs`. -/
structure Quaternion where
  r : F
  i : F
  j : F
  k : F
deriving DecidableEq, Repr

namespace Quaternion

/-- The zero quaternion. -/
def ZERO : Quaternion := ⟨.val 0, .val 0, .val 0, .val 0⟩

/-- The identity quaternion. -/
def IDENTITY : Quaternion := ⟨.val 1, .val 0, .val 0, .val 0⟩

/-- A pure vector quaternion. -/
def fromVector (v : Vector) : Quaternion := ⟨.val 0, v.x, v.y, v.z⟩

/-- Conjugation: negate the imaginary parts. -/
def conjugate (q : Quaternion) : Quaternion := ⟨q.r, .neg q.i, .neg q.j, .neg q.k⟩

/-- Squared norm `r.powi(2) + i.powi(2) + j.powi(2) + k.powi(2)`. -/
def norm2 (q : Quaternion) : F := .add (.add (.add (.sq q.r) (.sq q.i)) (.sq q.j)) (.sq q.k)

/-- Norm, the square root of `norm2`. -/
def norm (ops : RealOps) (q : Quaternion) : F := .sqrtF ops q.norm2

/-- Componentwise division by a scalar. -/
def sdiv (q : Quaternion) (s : F) : Quaternion := ⟨.div q.r s, .div q.i s, .div q.j s, .div q.k s⟩

/-- Normalization `self / self.norm()` (the debug assertion on a zero norm is
compiled out in release). -/
def normalize (ops : RealOps) (q : Quaternion) : Quaternion := q.sdiv (q.norm ops)

/-- Reciprocal of a unit quaternion: its conjugate. -/
def recip (q : Quaternion) : Quaternion := q.conjugate

/-- Hamilton product, the 4-term formulas of the source with left-to-right
summation. -/
def mul (a b : Quaternion) : Quaternion :=
  ⟨.sub (.sub (.sub (.mul a.r b.r) (.mul a.i b.i)) (.mul a.j b.j)) (.mul a.k b.k),
   .sub (.add (.add (.mul a.r b.i) (.mul a.i b.r)) (.mul a.j b.k)) (.mul a.k b.j),
   .add (.add (.sub (.mul a.r b.j) (.mul a.i b.k)) (.mul a.j b.r)) (.mul a.k b.i),
   .add (.sub (.add (.mul a.r b.k) (.mul a.i b.j)) (.mul a.j b.i)) (.mul a.k b.r)⟩

/-- Rotation of a vector: conjugate the pure quaternion of `v` by `q` and
take the vector part. -/
def rotateVector (q : Quaternion) (v : Vector) : Vector :=
  let p := mul (mul q (fromVector v)) q.recip
  ⟨p.i, p.j, p.k⟩

/-- `from_rotation(angle, axis)`: half-angle sine and cosine on the axis,
then renormalization. -/
def fromRotation (ops : RealOps) (angle : F) (axis : Vector) : Quaternion :=
  let angle := F.div angle (.val 2)
  let sin := F.sinF ops angle
  let cos := F.cosF ops angle
  let sv := Vector.smul axis sin
  normalize ops ⟨cos, sv.x, sv.y, sv.z⟩

/-- Rotation about the x axis. -/
def fromXRot (ops : RealOps) (angle : F) : Quaternion := fromRotation ops angle Vector.X

/-- Rotation about the y axis. -/
def fromYRot (ops : RealOps) (angle : F) : Quaternion := fromRotation ops angle Vector.Y

/-- Rotation about the z axis. -/
def fromZRot (ops : RealOps) (angle : F) : Quaternion := fromRotation ops angle Vector.Z

/-- The threshold `1.0 - 2.0 * f32::EPSILON`, i.e. `1 - 2⁻²²` exactly. -/
def DOT_EPSILON : F := .val (1 - 1 / 4194304)

/-- `from_arc(from, to)`: identity when nearly parallel, a π rotation about
an orthonormal vector when nearly anti-parallel, otherwise the half-way
quaternion built from the dot and cross products. -/
def fromArc (ops : RealOps) (vfrom vto : Vector) : Quaternion :=
  let dot := vfrom.dot vto
  if F.fgt dot DOT_EPSILON then IDENTITY
  else if F.flt dot (.neg DOT_EPSILON) then
    fromRotation ops (.val ops.pi) vfrom.anyOrthonormal
  else
    let cross := vfrom.cross vto
    normalize ops ⟨.add (.val 1) dot, cross.x, cross.y, cross.z⟩

end Quaternion

/-- A ray: origin and (intended unit) direction, from `render/rays.rs`.  The
debug assertion of `Ray::new` is compiled out in release. -/
structure Ray where
  orig : Point
  dir : Vector
deriving DecidableEq, Repr

/-- Second-degree polynomial over `f32`, from `maths/polynom2.rs`. -/
structure Polynom2 where
  a : F
  b : F
  c : F
deriving DecidableEq, Repr

/-- The threshold literal `1e-7` (the `f32` constant is the nearest dyadic;
the difference never matters to the claims below). -/
def eps7 : F := .val (1 / 10000000)

namespace Polynom2

/-- `Polynom2::roots`: the discriminant decides between no roots, the
tangent branch (which computes `-self.b / 2. * self.a`, i.e. `(-b/2)*a`, and
pairs the root with a NaN sentinel) and the two-root branch, sorted
ascending.  The root array `[f32; 2]` is modelled as a pair. -/
def roots (ops : RealOps) (p : Polynom2) : Option (F × F) :=
  let delta := F.sub (.sq p.b) (.mul (.mul (.val 4) p.a) p.c)
  if F.flt delta (.val 0) then none
  else if F.fle delta eps7 then
    some (F.mul (.div (.neg p.b) (.val 2)) p.a, F.nan)
  else
    let sqr := F.sqrtF ops delta
    let r1 := F.div (.sub (.neg p.b) sqr) (.mul (.val 2) p.a)
    let r2 := F.div (.add (.neg p.b) sqr) (.mul (.val 2) p.a)
    if F.fgt r1 r2 then some (r2, r1) else some (r1, r2)

end Polynom2

/-- `array::into_iter().find(|r| r.is_sign_positive())` on a two-root
array. -/
def findSignPositive (p : F × F) : Option F :=
  if p.1.isSignPositive then some p.1
  else if p.2.isSignPositive then some p.2
  else none

/-- Hit record from `render/intersection.rs`: distance along the ray, hit
point, surface normal. -/
structure Intersection where
  dist : F
  pos : Point
  normal : Vector
deriving DecidableEq, Repr

/-- Sphere from `scene/objects/sphere.rs`. -/
structure Sphere where
  pos : Point
  radius : F
deriving DecidableEq, Repr

namespace Sphere

/-- The quadratic `Sphere::intersect` builds: `a = 1`, `b = 2 (O-C)·D`,
`c = |O-C|² - R²`. -/
def poly (s : Sphere) (ray : Ray) : Polynom2 :=
  let adj := ray.orig.sub s.pos
  ⟨.val 1, .mul (.val 2) (adj.dot ray.dir), .sub adj.magn2 (.sq s.radius)⟩

/-- `Sphere::intersect`: first sign-positive root of the quadratic, then the
hit point and the normalized outward normal. -/
def intersect (ops : RealOps) (s : Sphere) (ray : Ray) : Option Intersection :=
  (((poly s ray).roots ops).bind findSignPositive).map fun d =>
    let pos := ray.orig.addV (ray.dir.smul d)
    let normal := (pos.sub s.pos).normalize ops
    ⟨d, pos, normal⟩

end Sphere

/-- Infinite plane from `scene/objects/plan.rs`; the constructor normalizes
the normal. -/
structure Plan where
  pos : Point
  norm : Vector
deriving DecidableEq, Repr

namespace Plan

/-- `Plan::new`, which normalizes the given normal. -/
def new (ops : RealOps) (pos : Point) (norm : Vector) : Plan := ⟨pos, norm.normalize ops⟩

/-- `Plan::intersect`: no hit when the ray is parallel within `1e-7`;
otherwise the linear solution with the normal sign-adjusted toward the ray,
rejecting hits at `t ≤ 1e-7`. -/
def intersect (p : Plan) (ray : Ray) : Option Intersection :=
  let denom := ray.dir.dot p.norm.neg
  if F.fgt denom.fabs eps7 then
    let sign := denom.signum
    let pv := p.pos.sub ray.orig
    let d := F.div (.neg (pv.dot (p.norm.smul sign))) denom.fabs
    if F.fgt d eps7 then
      some ⟨d, ray.orig.addV (ray.dir.smul d), p.norm.smul sign⟩
    else none
  else none

end Plan

/-- Infinite cylinder from `scene/objects/cylinder.rs`; the constructor
normalizes the axis. -/
structure Cylinder where
  pos : Point
  dir : Vector
  radius : F
deriving DecidableEq, Repr

namespace Cylinder

/-- `Cylinder::new`, which normalizes the axis direction. -/
def new (ops : RealOps) (pos : Point) (dir : Vector) (radius : F) : Cylinder :=
  ⟨pos, dir.normalize ops, radius⟩

/-- The quadratic `Cylinder::intersect` builds.  Note the `b` coefficient is
transcribed exactly as the source computes it:
`2.0 * adj.dot(ray.dir) - ray.dir.dot(self.dir) * adj.dot(self.dir)`,
which by precedence is `2(adj·D) - (D·A)(adj·A)`. -/
def poly (cy : Cylinder) (ray : Ray) : Polynom2 :=
  let adj := ray.orig.sub cy.pos
  ⟨.sub (.val 1) (.sq (cy.dir.dot ray.dir)),
   .sub (.mul (.val 2) (adj.dot ray.dir)) (.mul (ray.dir.dot cy.dir) (adj.dot cy.dir)),
   .sub (.sub adj.magn2 (.sq (adj.dot cy.dir))) (.sq cy.radius)⟩

/-- `Cylinder::intersect`: first sign-positive root, then the hit point and
the normalized radial normal through the axis projection. -/
def intersect (ops : RealOps) (cy : Cylinder) (ray : Ray) : Option Intersection :=
  match ((poly cy ray).roots ops).bind findSignPositive with
  | some dist =>
    let point := ray.orig.addV (ray.dir.smul dist)
    let projection := cy.pos.addV (cy.dir.smul ((point.sub cy.pos).dot cy.dir))
    some ⟨dist, point, (point.sub projection).normalize ops⟩
  | none => none

end Cylinder

/-- Infinite double-napped cone from `scene/objects/cone.rs`; the
constructor normalizes the axis and converts the half-angle to radians. -/
structure Cone where
  pos : Point
  dir : Vector
  angle : F
deriving DecidableEq, Repr

namespace Cone

/-- `Cone::new`, which normalizes the axis and applies `to_radians` to the
angle. -/
def new (ops : RealOps) (pos : Point) (dir : Vector) (angle : F) : Cone :=
  ⟨pos, dir.normalize ops, F.toRad ops angle⟩

/-- The quadratic `Cone::intersect` builds, with the `tan²θ` term folded
into all three coefficients. -/
def poly (ops : RealOps) (co : Cone) (ray : Ray) : Polynom2 :=
  let adj := ray.orig.sub co.pos
  let tan2 := F.sq (F.tanF ops co.angle)
  ⟨.sub (.sub (.val 1) tan2) (.sq (ray.dir.dot co.dir)),
   .mul (.val 2)
     (.sub (.mul (adj.dot ray.dir) (.sub (.val 1) tan2))
           (.mul (co.dir.dot ray.dir) (co.dir.dot adj))),
   .sub (.mul adj.magn2 (.sub (.val 1) tan2)) (.sq (co.dir.dot adj))⟩

/-- `Cone::intersect`: the root pair passes through `Option::filter`, which
discards the WHOLE pair whenever the second root is NaN; a surviving pair
yields its first sign-positive root, then the hit point and the (not
normalized) normal through the apex-line projection. -/
def intersect (ops : RealOps) (co : Cone) (ray : Ray) : Option Intersection :=
  let rts := (poly ops co ray).roots ops
  match (rts.filter fun p => !p.2.isNan).bind findSignPositive with
  | some dist =>
    let point := ray.orig.addV (ray.dir.smul dist)
    let v := point.sub co.pos
    let projection := co.pos.addV (co.dir.smul (.div v.magn2 (co.dir.dot v)))
    some ⟨dist, point, point.sub projection⟩
  | none => none

end Cone

/-- Closed sum of the object variants, standing for `dyn Object`. -/
inductive Object where
  | sphere : Sphere → Object
  | plan : Plan → Object
  | cone : Cone → Object
  | cylinder : Cylinder → Object
deriving DecidableEq, Repr

/-- Dynamic dispatch of `Object::intersect`. -/
def Object.intersect (ops : RealOps) : Object → Ray → Option Intersection
  | .sphere s, ray => s.intersect ops ray
  | .plan p, ray => p.intersect ray
  | .cone c, ray => c.intersect ops ray
  | .cylinder c, ray => c.intersect ops ray

/-- Field of view, from `render/camera/fov.rs`: a horizontal or vertical
angle in degrees. -/
inductive Fov where
  | horizontal : F → Fov
  | vertical : F → Fov
deriving DecidableEq, Repr

/-- Pixel grid, from `render/camera/sensor.rs`. -/
structure Sensor where
  width : ℕ
  height : ℕ
deriving DecidableEq, Repr

namespace Sensor

/-- `Sensor::distance`: half the matching extent (integer division, then
cast) over the tangent of the angle in radians. -/
def distance (ops : RealOps) (s : Sensor) (fov : Fov) : F :=
  match fov with
  | .horizontal angle => F.div (.val ((s.width / 2 : ℕ) : ℚ)) (F.tanF ops (F.toRad ops angle))
  | .vertical angle => F.div (.val ((s.height / 2 : ℕ) : ℚ)) (F.tanF ops (F.toRad ops angle))

/-- `Sensor::has_pixel`: bounds check. -/
def hasPixel (s : Sensor) (x y : ℕ) : Bool := x < s.width && y < s.height

/-- `Sensor::pixel_pos_to_render_pos`: center the coordinates on the half
extents (integer division) and flip `y`; the `i32` to `f32` casts are exact
at sensor magnitudes. -/
def pixelPosToRenderPos (s : Sensor) (x y : ℕ) : Option (F × F) :=
  if s.hasPixel x y then
    let halfW : ℤ := (s.width / 2 : ℕ)
    let halfH : ℤ := (s.height / 2 : ℕ)
    some (.val (((x : ℤ) - halfW : ℤ) : ℚ), .val ((-((y : ℤ) - halfH) : ℤ) : ℚ))
  else none

end Sensor

/-- Camera from `render/camera.rs`, with the derived distance and the cached
orientation quaternion. -/
structure Camera where
  pos : Point
  dir : Vector
  sensor : Sensor
  fov : Fov
  tilt : F
  dist : F
  baseRot : Quaternion
deriving DecidableEq, Repr

namespace Camera

/-- `Camera::new`: normalizes the direction, converts the tilt to radians
and stores it, derives the sensor distance, and caches
`from_arc(Z, dir) * from_z_rot(tilt.to_radians())` — note the stored `tilt`
is already in radians, so the tilt is converted twice. -/
def new (ops : RealOps) (pos : Point) (dir : Vector) (sensor : Sensor) (fov : Fov)
    (tilt : F) : Camera :=
  let dir := dir.normalize ops
  let tilt := F.toRad ops tilt
  let dist := sensor.distance ops fov
  let baseRot :=
    (Quaternion.fromArc ops Vector.Z dir).mul (Quaternion.fromZRot ops (F.toRad ops tilt))
  ⟨pos, dir, sensor, fov, tilt, dist, baseRot⟩

/-- `Camera::get_ray`: map the pixel through the sensor, extend by the
camera distance along `Z`, rotate by the cached orientation, and
normalize. -/
def getRay (ops : RealOps) (c : Camera) (x y : ℕ) : Option Ray :=
  (c.sensor.pixelPosToRenderPos x y).map fun xy =>
    let dir := (Vector.mk xy.1 xy.2 (.val 0)).add (Vector.Z.smul c.dist)
    ⟨c.pos, ((c.baseRot.rotateVector dir).normalize ops)⟩

end Camera

/-- RGBA color with four 8-bit channels, from `colors.rs`. -/
structure Rgba where
  r : Fin 256
  g : Fin 256
  b : Fin 256
  a : Fin 256
deriving DecidableEq, Repr

namespace Rgba

/-- `Rgba::from_rgb`: alpha fixed at `0xFF`. -/
def fromRgb (r g b : Fin 256) : Rgba := ⟨r, g, b, 255⟩

/-- Opaque black. -/
def BLACK : Rgba := fromRgb 0 0 0

/-- Opaque white. -/
def WHITE : Rgba := fromRgb 255 255 255

/-- Opaque red. -/
def RED : Rgba := fromRgb 255 0 0

end Rgba

/-- The Rust `as u8` cast from `f32`: truncate toward zero, saturating to
`[0, 255]`; NaN maps to 0. -/
def toU8 : F → Fin 256
  | .nan => 0
  | .ninf => 0
  | .inf => 255
  | .val q =>
    if q < 0 then 0
    else ⟨min 255 (Int.toNat ⌊q⌋), by omega⟩

/-- Light variants; only the field-less directional light exists in the
source, and `render_pixel` never consults lights. -/
inductive Light where
  | directional : Light
deriving DecidableEq, Repr

/-- Scene from `scene.rs`: the ordered object and light lists plus the
ambient factor. -/
structure Scene where
  objects : List Object
  lights : List Light
  ambiant : F

/-- Shader stage variants of `render.rs`: the `Fast` facing-term stage and
the `GammaEncoder` stage with its factor. -/
inductive Shader where
  | fast : Shader
  | gammaEncoder : F → Shader

/-- `GammaEncoder::encode`: per RGB channel, divide by 255, raise to
`factor.recip()` with `powf`, scale back and cast; alpha untouched. -/
def gammaEncode (ops : RealOps) (factor : F) (color : Rgba) : Rgba :=
  let fr := F.div (.val (color.r : ℕ)) (.val 255)
  let fg := F.div (.val (color.g : ℕ)) (.val 255)
  let fb := F.div (.val (color.b : ℕ)) (.val 255)
  let fr := F.powF ops fr factor.frecip
  let fg := F.powF ops fg factor.frecip
  let fb := F.powF ops fb factor.frecip
  ⟨toU8 (.mul fr (.val 255)), toU8 (.mul fg (.val 255)), toU8 (.mul fb (.val 255)), color.a⟩

/-- Dispatch of `Shader::compute_color` over the two stages.  `Fast` scales
each RGB channel by `ray.dir · (-normal)` and rebuilds the color through
`Rgba::from_rgb` (so with opaque alpha), casting each product with `as u8`;
`GammaEncoder` applies `encode`. -/
def Shader.computeColor (ops : RealOps) : Shader → Ray → Object → Intersection → Rgba →
    Scene → Rgba
  | .fast, ray, _, intersection, color, _ =>
    let intensity := ray.dir.dot intersection.normal.neg
    Rgba.fromRgb (toU8 (.mul (.val (color.r : ℕ)) intensity))
      (toU8 (.mul (.val (color.g : ℕ)) intensity))
      (toU8 (.mul (.val (color.b : ℕ)) intensity))
  | .gammaEncoder factor, _, _, _, color, _ => gammaEncode ops factor color

/-- `Iterator::min_by`: fold keeping the earlier element on ties (the later
element is taken only when strictly greater). -/
def minBy {α : Type} (cmp : α → α → Ordering) : List α → Option α
  | [] => none
  | x :: xs => some (xs.foldl (fun acc y => if cmp acc y = .gt then y else acc) x)

/-- The per-object hit pairs `render_pixel` builds:
`objects.iter().filter_map(|o| o.intersect(ray).zip(Some(o)))`. -/
def sceneInters (ops : RealOps) (scene : Scene) (ray : Ray) : List (Intersection × Object) :=
  scene.objects.filterMap fun o => (Object.intersect ops o ray).map fun i => (i, o)

/-- The comparison `render_pixel` minimizes by: `total_cmp` on the hit
distances. -/
def interCmp (p q : Intersection × Object) : Ordering := F.totalCmp p.1.dist q.1.dist

/-- Renderer from `render.rs`: a background color and the ordered shader
stages. -/
structure Renderer where
  background : Rgba
  shaders : List Shader

/-- `Renderer::new`: the default pipeline is `Fast` then a `GammaEncoder`
with the default factor 2.2 (modelled by `11/5`). -/
def Renderer.new (background : Rgba) : Renderer :=
  ⟨background, [Shader.fast, Shader.gammaEncoder (.val (11 / 5))]⟩

/-- `Renderer::render_pixel`: background when the camera yields no ray,
otherwise minimize `total_cmp` on distance over the per-object hits and
fold the shader stages from opaque white; background again when there is no
hit. -/
def Renderer.renderPixel (ops : RealOps) (rend : Renderer) (x y : ℕ) (camera : Camera)
    (scene : Scene) : Rgba :=
  match camera.getRay ops x y with
  | none => rend.background
  | some ray =>
    match minBy interCmp (sceneInters ops scene ray) with
    | none => rend.background
    | some (inter, obj) =>
      rend.shaders.foldl (fun col s => s.computeColor ops ray obj inter col scene) Rgba.WHITE

/-- Formalised from the spec, for comparison with `Cylinder.poly`: the
specification's `b` coefficient `2 * (adj·D - (D·A)(adj·A))`. -/
def specCylinderB (cy : Cylinder) (ray : Ray) : F :=
  let adj := ray.orig.sub cy.pos
  F.mul (.val 2) (.sub (adj.dot ray.dir) (.mul (ray.dir.dot cy.dir) (adj.dot cy.dir)))

/-- Vector of rational literals. -/
def qv (x y z : ℚ) : Vector := ⟨.val x, .val y, .val z⟩

/-- Point of rational literals. -/
def qp (x y z : ℚ) : Point := ⟨.val x, .val y, .val z⟩

/-- Concrete interpretation of the transcendental operations, used to
instantiate theorems at closed inputs (any interpretation refutes a claimed
identity that the code's expression structure already violates). -/
def ops0 : RealOps :=
  { sqrt := fun q => if q = 4 then 2 else if q = 25 / 16 then 5 / 4 else 1
    sin := fun x => x
    cos := fun _ => 1
    tan := fun _ => 1
    pw := fun x _ => x
    pi := 355 / 113
    degRad := 1 / 60 }

/-- A ray from the origin along `+Z`. -/
def rayZ : Ray := ⟨qp 0 0 0, qv 0 0 1⟩

/-- Sphere of radius 1 centered one unit down the `+Z` axis: `rayZ` starts
on its surface. -/
def sphere1 : Sphere := ⟨qp 0 0 1, .val 1⟩

/-- Sphere of radius 1 that `rayZ` grazes tangentially behind its origin. -/
def sphere2 : Sphere := ⟨qp 0 1 (-1), .val 1⟩

/-- Unit cylinder about the `Z` axis. -/
def cyl1 : Cylinder := Cylinder.new ops0 (qp 0 0 0) (qv 0 0 1) (.val 1)

/-- An oblique unit-direction ray with both an axial and a radial
component. -/
def ray4 : Ray := ⟨qp 2 0 5, qv (3 / 5) 0 (4 / 5)⟩

/-- 45-degree cone at the origin about `+Z` (under `ops0` its tangent
squared is 1). -/
def cone1 : Cone := Cone.new ops0 (qp 0 0 0) (qv 0 0 1) (.val 45)

/-- A downward ray tangentially grazing `cone1` with a positive root. -/
def ray5 : Ray := ⟨qp 5 0 1, qv 0 0 (-1)⟩

/-- A 2 by 2 sensor. -/
def sensor0 : Sensor := ⟨2, 2⟩

/-- A 70-degree horizontal field of view. -/
def fov0 : Fov := .horizontal (.val 70)

/-- Untilted camera at the origin looking down `+Z`. -/
def cam0 : Camera := Camera.new ops0 (qp 0 0 0) (qv 0 0 1) sensor0 fov0 (.val 0)

/-- Scene with a single sphere three units down the `+Z` axis. -/
def scene0 : Scene := ⟨[Object.sphere ⟨qp 0 0 3, .val 1⟩], [], .val 0⟩

/-- The single scene object of `scene0`. -/
def obj0 : Object := Object.sphere ⟨qp 0 0 3, .val 1⟩

/-- The hit `rayZ` scores on `obj0`. -/
def inter0 : Intersection := ⟨.val 2, qp 0 0 2, qv 0 0 (-1)⟩

/-- Default renderer over a black background. -/
def rend0 : Renderer := Renderer.new Rgba.BLACK

/-- A hit record whose normal faces along the ray, making the facing term
negative. -/
def inter8 : Intersection := ⟨.val 1, qp 0 0 1, qv 0 0 1⟩

/-- On rationals, not-greater in the three-way comparison is exactly
less-or-equal. -/
lemma qcmp_ne_gt_iff (p q : ℚ) : F.qcmp p q ≠ Ordering.gt ↔ p ≤ q := by
  unfold F.qcmp
  rcases lt_trichotomy p q with h | h | h
  · simp [h]
    linarith
  · simp [h]
  · simp only [not_lt.mpr (le_of_lt h), if_false, if_pos h]
    simp
    linarith

/-- Greater in the three-way comparison on rationals is strict reverse
order. -/
lemma qcmp_eq_gt_iff (p q : ℚ) : F.qcmp p q = Ordering.gt ↔ q < p := by
  unfold F.qcmp
  rcases lt_trichotomy p q with h | h | h
  · simp [h]
    linarith
  · simp [h]
  · simp [not_lt.mpr (le_of_lt h), h]

/-- `total_cmp` never reports an element greater than itself. -/
lemma totalCmp_refl (a : F) : F.totalCmp a a ≠ Ordering.gt := by
  cases a <;> simp [F.totalCmp, qcmp_ne_gt_iff]

/-- The not-greater relation of `total_cmp` is transitive. -/
lemma totalCmp_ne_gt_trans {a b c : F} (h1 : F.totalCmp a b ≠ Ordering.gt)
    (h2 : F.totalCmp b c ≠ Ordering.gt) : F.totalCmp a c ≠ Ordering.gt := by
  cases a <;> cases b <;> cases c <;>
    simp_all [F.totalCmp, qcmp_ne_gt_iff]
  linarith

/-- `total_cmp` is asymmetric on strict comparisons. -/
lemma totalCmp_gt_asymm {a b : F} (h : F.totalCmp a b = Ordering.gt) :
    F.totalCmp b a ≠ Ordering.gt := by
  cases a <;> cases b <;>
    simp_all [F.totalCmp, qcmp_ne_gt_iff, qcmp_eq_gt_iff]
  linarith

/-- The fold inside `min_by` returns an element not greater than the
accumulator nor than any list element. -/
lemma minBy_foldl_min {α : Type} (cmp : α → α → Ordering)
    (htrans : ∀ a b c, cmp a b ≠ Ordering.gt → cmp b c ≠ Ordering.gt →
      cmp a c ≠ Ordering.gt)
    (hasymm : ∀ a b, cmp a b = Ordering.gt → cmp b a ≠ Ordering.gt)
    (hrefl : ∀ a, cmp a a ≠ Ordering.gt) (xs : List α) :
    ∀ acc : α,
      cmp (xs.foldl (fun a y => if cmp a y = Ordering.gt then y else a) acc) acc
          ≠ Ordering.gt
      ∧ ∀ y ∈ xs,
          cmp (xs.foldl (fun a y => if cmp a y = Ordering.gt then y else a) acc) y
            ≠ Ordering.gt := by
  induction xs with
  | nil => intro acc; exact ⟨hrefl acc, by simp⟩
  | cons x xs ih =>
    intro acc
    simp only [List.foldl_cons]
    by_cases hx : cmp acc x = Ordering.gt
    · rw [if_pos hx]
      rcases ih x with ⟨h1, h2⟩
      refine ⟨htrans _ _ _ h1 (hasymm _ _ hx), ?_⟩
      intro y hy
      rcases List.mem_cons.mp hy with rfl | hy
      · exact h1
      · exact h2 y hy
    · rw [if_neg hx]
      rcases ih acc with ⟨h1, h2⟩
      refine ⟨h1, ?_⟩
      intro y hy
      rcases List.mem_cons.mp hy with rfl | hy
      · exact htrans _ _ _ h1 hx
      · exact h2 y hy

/-- The element `min_by` selects is minimal for the comparison among the
list elements. -/
lemma minBy_min {α : Type} (cmp : α → α → Ordering)
    (htrans : ∀ a b c, cmp a b ≠ Ordering.gt → cmp b c ≠ Ordering.gt →
      cmp a c ≠ Ordering.gt)
    (hasymm : ∀ a b, cmp a b = Ordering.gt → cmp b a ≠ Ordering.gt)
    (hrefl : ∀ a, cmp a a ≠ Ordering.gt) {l : List α} {m : α}
    (h : minBy cmp l = some m) : ∀ a ∈ l, cmp m a ≠ Ordering.gt := by
  cases l with
  | nil => simp [minBy] at h
  | cons x xs =>
    simp only [minBy, Option.some.injEq] at h
    subst h
    intro a ha
    rcases List.mem_cons.mp ha with rfl | ha
    · exact (minBy_foldl_min cmp htrans hasymm hrefl xs a).1
    · exact (minBy_foldl_min cmp htrans hasymm hrefl xs x).2 a ha

/-- When every object misses the ray, the per-object hit list is empty. -/
lemma sceneInters_eq_nil {ops : RealOps} {scene : Scene} {ray : Ray}
    (h : ∀ o ∈ scene.objects, Object.intersect ops o ray = none) :
    sceneInters ops scene ray = [] := by
  unfold sceneInters
  rw [List.filterMap_eq_nil_iff]
  intro o ho
  rw [h o ho]
  rfl

/-- The saturating `as u8` cast is the identity on in-range channel
values. -/
lemma toU8_natCast (n : Fin 256) : toU8 (.val ((n : ℕ) : ℚ)) = n := by
  simp only [toU8]
  rw [if_neg (not_lt.mpr (by positivity))]
  apply Fin.ext
  have hn := n.isLt
  simp [Int.floor_natCast]
  omega

/-- The saturating `as u8` cast collapses every non-positive value to 0. -/
lemma toU8_nonpos {x : ℚ} (h : x ≤ 0) : toU8 (.val x) = 0 := by
  simp only [toU8]
  by_cases hx : x < 0
  · rw [if_pos hx]
  · have hx0 : x = 0 := le_antisymm h (not_lt.mp hx)
    subst hx0
    rw [if_neg (lt_irrefl 0)]
    apply Fin.ext
    simp

/-- C1: the claim says every returned Intersection has a strictly positive,
non-NaN distance.  The code checks roots with `is_sign_positive`, which
accepts `+0.0` and the positive-signed `f32::NAN` sentinel: a ray starting
on the sphere surface and pointing inward gets distance 0, and a ray
tangent to a sphere behind its origin gets distance NaN. -/
theorem C1_sphere_zero_and_nan_distance :
    (Sphere.intersect ops0 sphere1 rayZ).map Intersection.dist = some (F.val 0)
    ∧ (Sphere.intersect ops0 sphere2 rayZ).map Intersection.dist = some F.nan := by
  constructor
  · norm_num [Sphere.intersect, Sphere.poly, Polynom2.roots, findSignPositive, Vector.dot,
      Vector.magn2, Vector.magn, Vector.normalize, Vector.sdiv, Vector.smul, Point.sub,
      Point.addV, F.sqrtF, F.add, F.sub, F.mul, F.div, F.neg, F.sq, F.flt, F.fle, F.fgt,
      F.isSignPositive, eps7, rayZ, sphere1, qp, qv, ops0]
  · norm_num [Sphere.intersect, Sphere.poly, Polynom2.roots, findSignPositive, Vector.dot,
      Vector.magn2, Vector.magn, Vector.normalize, Vector.sdiv, Vector.smul, Point.sub,
      Point.addV, F.sqrtF, F.add, F.sub, F.mul, F.div, F.neg, F.sq, F.flt, F.fle, F.fgt,
      F.isSignPositive, eps7, rayZ, sphere2, qp, qv, ops0]

/-- C2: the claim (and the source doc comment) give the tangent root as
`-b / (2a)`.  The code computes `-self.b / 2. * self.a`, which by
precedence is `(-b / 2) * a`: at `(a, b, c) = (2, 2, 1/2)` (discriminant
exactly 0) it returns -2, which differs from `-b / (2a) = -1/2` and is not
even a root of the polynomial. -/
theorem C2_tangent_root_formula :
    Polynom2.roots ops0 ⟨.val 2, .val 2, .val (1 / 2)⟩ = some (.val (-2), .nan)
    ∧ (-2 : ℚ) ≠ -2 / (2 * 2)
    ∧ 2 * (-2 : ℚ) ^ 2 + 2 * (-2) + 1 / 2 ≠ 0 := by
  refine ⟨?_, by norm_num, by norm_num⟩
  norm_num [Polynom2.roots, F.sqrtF, F.add, F.sub, F.mul, F.div, F.neg, F.sq, F.flt,
    F.fle, F.fgt, eps7, ops0]

/-- C3: `render_pixel` returns the background when the camera yields no ray
or when no object intersects the ray; otherwise it takes a hit pair that is
minimal for `total_cmp` on distance among all per-object hits and returns
the left-to-right fold of the shader stages over it, seeded with opaque
white. -/
theorem C3_render_pixel_characterization (ops : RealOps) (rend : Renderer) (cam : Camera)
    (scene : Scene) (x y : ℕ) :
    (Camera.getRay ops cam x y = none →
        Renderer.renderPixel ops rend x y cam scene = rend.background)
    ∧ ∀ ray, Camera.getRay ops cam x y = some ray →
        ((∀ o ∈ scene.objects, Object.intersect ops o ray = none) →
            Renderer.renderPixel ops rend x y cam scene = rend.background)
        ∧ ∀ inter obj,
            minBy interCmp (sceneInters ops scene ray) = some (inter, obj) →
            Renderer.renderPixel ops rend x y cam scene
                = rend.shaders.foldl
                    (fun col s => s.computeColor ops ray obj inter col scene) Rgba.WHITE
            ∧ ∀ p ∈ sceneInters ops scene ray,
                F.totalCmp inter.dist p.1.dist ≠ Ordering.gt := by
  refine ⟨fun h => by simp [Renderer.renderPixel, h], fun ray hray => ⟨?_, ?_⟩⟩
  · intro hnone
    simp [Renderer.renderPixel, hray, sceneInters_eq_nil hnone, minBy]
  · intro inter obj hmin
    refine ⟨by simp [Renderer.renderPixel, hray, hmin], fun p hp => ?_⟩
    have hmono := minBy_min interCmp
      (fun a b c h1 h2 => totalCmp_ne_gt_trans h1 h2)
      (fun a b h => totalCmp_gt_asymm h)
      (fun a => totalCmp_refl _) hmin p hp
    simpa [interCmp] using hmono

/-- Witness for C3: on a concrete camera, scene and pixel, the hit branch of
the characterization applies and yields the shader fold. -/
theorem C3_witness :
    Renderer.renderPixel ops0 rend0 1 1 cam0 scene0
        = rend0.shaders.foldl
            (fun col s => s.computeColor ops0 rayZ obj0 inter0 col scene0) Rgba.WHITE
    ∧ ∀ p ∈ sceneInters ops0 scene0 rayZ,
        F.totalCmp inter0.dist p.1.dist ≠ Ordering.gt := by
  have h := ((C3_render_pixel_characterization ops0 rend0 cam0 scene0 1 1).2 rayZ
    (by norm_num [Camera.getRay, Camera.new, Sensor.pixelPosToRenderPos, Sensor.hasPixel,
      Sensor.distance, Quaternion.fromArc, Quaternion.fromZRot, Quaternion.fromRotation,
      Quaternion.normalize, Quaternion.sdiv, Quaternion.norm, Quaternion.norm2,
      Quaternion.rotateVector, Quaternion.mul, Quaternion.recip, Quaternion.conjugate,
      Quaternion.fromVector, Quaternion.IDENTITY, Quaternion.DOT_EPSILON,
      Vector.dot, Vector.cross, Vector.magn2, Vector.magn, Vector.normalize, Vector.sdiv,
      Vector.smul, Vector.add, Vector.Z, F.sqrtF, F.sinF, F.cosF, F.tanF, F.toRad, F.add,
      F.sub, F.mul, F.div, F.neg, F.sq, F.flt, F.fle, F.fgt, cam0, sensor0, fov0, rayZ,
      qp, qv, ops0])).2 inter0 obj0
    (by norm_num [minBy, interCmp, sceneInters, scene0, obj0, inter0, Object.intersect,
      List.filterMap_cons, List.filterMap_nil, Option.map, Option.bind, Sphere.intersect,
      Sphere.poly, Polynom2.roots, findSignPositive, Vector.dot, Vector.magn2, Vector.magn,
      Vector.normalize, Vector.sdiv, Vector.smul, Point.sub, Point.addV, F.sqrtF, F.add,
      F.sub, F.mul, F.div, F.neg, F.sq, F.flt, F.fle, F.fgt, F.isSignPositive, eps7,
      rayZ, qp, qv, ops0])
  exact h

/-- C4: the specification (and the claim) give the cylinder quadratic
coefficient `b = 2 (adj·D - (D·A)(adj·A))`.  The code computes
`2.0 * adj.dot(ray.dir) - ray.dir.dot(self.dir) * adj.dot(self.dir)`,
which by precedence is `2 (adj·D) - (D·A)(adj·A)`: on a concrete oblique
ray the two differ (32/5 against 12/5). -/
theorem C4_cylinder_b_coefficient :
    (Cylinder.poly cyl1 ray4).b = .val (32 / 5)
    ∧ specCylinderB cyl1 ray4 = .val (12 / 5)
    ∧ F.val (32 / 5) ≠ F.val (12 / 5) := by
  refine ⟨?_, ?_, by simp; norm_num⟩
  · norm_num [Cylinder.poly, Cylinder.new, Vector.dot, Vector.magn2, Vector.normalize,
      Vector.sdiv, Vector.magn, Point.sub, F.sqrtF, F.add, F.sub, F.mul, F.div, F.neg,
      F.sq, cyl1, ray4, qp, qv, ops0]
  · norm_num [specCylinderB, Cylinder.new, Vector.dot, Vector.magn2, Vector.normalize,
      Vector.sdiv, Vector.magn, Point.sub, F.sqrtF, F.add, F.sub, F.mul, F.div, F.neg,
      F.sq, cyl1, ray4, qp, qv, ops0]

/-- Counterexample to C5: a ray tangent to the cone with positive first
root 1 and the NaN sentinel as second root gets no intersection at all —
`Option::filter` discards the whole pair, it does not drop only the NaN
value. -/
theorem C5_tangent_hit_discarded :
    (Cone.poly ops0 cone1 ray5).roots ops0 = some (.val 1, F.nan)
    ∧ F.isSignPositive (.val 1) = true
    ∧ Cone.intersect ops0 cone1 ray5 = none := by
  refine ⟨?_, by norm_num [F.isSignPositive], ?_⟩
  · norm_num [Cone.poly, Cone.new, Polynom2.roots, Vector.dot, Vector.magn2,
      Vector.normalize, Vector.sdiv, Vector.magn, Point.sub, F.sqrtF, F.tanF, F.toRad,
      F.add, F.sub, F.mul, F.div, F.neg, F.sq, F.flt, F.fle, F.fgt, eps7, cone1, ray5,
      qp, qv, ops0]
  · norm_num [Cone.intersect, Cone.poly, Cone.new, Polynom2.roots, findSignPositive,
      Vector.dot, Vector.magn2, Vector.normalize, Vector.sdiv, Vector.magn, Point.sub,
      Point.addV, F.sqrtF, F.tanF, F.toRad, F.add, F.sub, F.mul, F.div, F.neg, F.sq,
      F.flt, F.fle, F.fgt, F.isNan, Option.filter, eps7, cone1, ray5, qp, qv, ops0]

/-- C5 (amended): whenever the cone quadratic's root pair carries the NaN
sentinel second value, `Cone::intersect` discards the whole pair through
`Option::filter` and returns no intersection — tangent hits are never
returned. -/
theorem C5_nan_pair_discards_intersection (ops : RealOps) (co : Cone) (ray : Ray)
    (r1 r2 : F) (hroots : (Cone.poly ops co ray).roots ops = some (r1, r2))
    (hnan : r2.isNan = true) : Cone.intersect ops co ray = none := by
  simp [Cone.intersect, hroots, Option.filter, hnan]

/-- Witness for C5: the amended statement applies to the concrete tangent
configuration of the counterexample. -/
theorem C5_witness : Cone.intersect ops0 cone1 ray5 = none := by
  apply C5_nan_pair_discards_intersection ops0 cone1 ray5 (.val 1) F.nan
  · norm_num [Cone.poly, Cone.new, Polynom2.roots, Vector.dot, Vector.magn2,
      Vector.normalize, Vector.sdiv, Vector.magn, Point.sub, F.sqrtF, F.tanF, F.toRad,
      F.add, F.sub, F.mul, F.div, F.neg, F.sq, F.flt, F.fle, F.fgt, eps7, cone1, ray5,
      qp, qv, ops0]
  · rfl

/-- C6: the claim says the cached orientation applies `to_radians` to the
tilt once.  `Camera::new` stores `tilt.to_radians()` and then calls
`from_z_rot(tilt.to_radians())` on the stored value, converting twice: at
tilt 90 the cached quaternion equals the double-converted expression and
differs from the claimed single-converted one. -/
theorem C6_tilt_converted_twice :
    (Camera.new ops0 (qp 0 0 0) (qv 0 0 1) sensor0 fov0 (.val 90)).baseRot
        = (Quaternion.fromArc ops0 Vector.Z ((qv 0 0 1).normalize ops0)).mul
            (Quaternion.fromZRot ops0 (F.toRad ops0 (F.toRad ops0 (.val 90))))
    ∧ (Camera.new ops0 (qp 0 0 0) (qv 0 0 1) sensor0 fov0 (.val 90)).baseRot
        ≠ (Quaternion.fromArc ops0 Vector.Z ((qv 0 0 1).normalize ops0)).mul
            (Quaternion.fromRotation ops0 (F.toRad ops0 (.val 90)) Vector.Z) := by
  constructor
  · rfl
  · have h1 : (Camera.new ops0 (qp 0 0 0) (qv 0 0 1) sensor0 fov0 (.val 90)).baseRot
        = ⟨.val 1, .val 0, .val 0, .val (1 / 80)⟩ := by
      norm_num [Camera.new, Sensor.distance, Quaternion.fromArc, Quaternion.fromZRot,
        Quaternion.fromRotation, Quaternion.normalize, Quaternion.sdiv, Quaternion.norm,
        Quaternion.norm2, Quaternion.mul, Quaternion.fromVector, Quaternion.IDENTITY,
        Quaternion.DOT_EPSILON, Vector.dot, Vector.cross, Vector.magn2, Vector.magn,
        Vector.normalize, Vector.sdiv, Vector.smul, Vector.Z, F.sqrtF, F.sinF, F.cosF,
        F.tanF, F.toRad, F.add, F.sub, F.mul, F.div, F.neg, F.sq, F.flt, F.fle, F.fgt,
        sensor0, fov0, qp, qv, ops0]
    have h2 : (Quaternion.fromArc ops0 Vector.Z ((qv 0 0 1).normalize ops0)).mul
          (Quaternion.fromRotation ops0 (F.toRad ops0 (.val 90)) Vector.Z)
        = ⟨.val (4 / 5), .val 0, .val 0, .val (3 / 5)⟩ := by
      norm_num [Quaternion.fromArc, Quaternion.fromRotation, Quaternion.normalize,
        Quaternion.sdiv, Quaternion.norm, Quaternion.norm2, Quaternion.mul,
        Quaternion.fromVector, Quaternion.IDENTITY, Quaternion.DOT_EPSILON, Vector.dot,
        Vector.cross, Vector.magn2, Vector.magn, Vector.normalize, Vector.sdiv,
        Vector.smul, Vector.Z, F.sqrtF, F.sinF, F.cosF, F.toRad, F.add, F.sub, F.mul,
        F.div, F.neg, F.sq, F.flt, F.fle, F.fgt, qv, ops0]
    rw [h1, h2]
    simp only [Quaternion.mk.injEq, F.val.injEq, ne_eq]
    norm_num

/-- C7: a `GammaEncoder` with factor 1 is the identity on every color:
`powf(x, 1) = x` (the IEEE identity, taken as a hypothesis on the
abstracted `powf`), and the channel round-trip through `/255` and `*255`
is exact, so every channel and the alpha are returned unchanged. -/
theorem C7_gamma_factor_one_identity (ops : RealOps) (hpw : ∀ x : ℚ, ops.pw x 1 = x)
    (c : Rgba) : gammaEncode ops (.val 1) c = c := by
  obtain ⟨r, g, b, a⟩ := c
  have hch : ∀ n : Fin 256,
      toU8 (.mul (.powF ops (.div (.val ((n : ℕ) : ℚ)) (.val 255)) (F.frecip (.val 1)))
        (.val 255)) = n := by
    intro n
    have h255 : ¬((255 : ℚ) = 0) := by norm_num
    simp only [F.frecip, F.div, if_neg h255, F.powF]
    rw [if_neg (by norm_num : ¬(1 : ℚ) = 0)]
    norm_num [hpw, F.mul]
    exact toU8_natCast n
  simp only [gammaEncode]
  rw [hch r, hch g, hch b]

/-- Witness for C7: the concrete interpretation `ops0` satisfies the
`powf(x, 1) = x` hypothesis, and the encoder with factor 1 fixes an
explicit color. -/
theorem C7_witness :
    (∀ x : ℚ, ops0.pw x 1 = x) ∧ gammaEncode ops0 (.val 1) Rgba.RED = Rgba.RED :=
  ⟨fun _ => rfl, C7_gamma_factor_one_identity ops0 (fun _ => rfl) Rgba.RED⟩

/-- Counterexample to C8: with facing term -1 on a white input, the Fast
stage outputs channel 0, not the unclamped product `255 * (-1) = -255`:
the `as u8` cast saturates, so negative products are not preserved. -/
theorem C8_negative_product_clamped :
    rayZ.dir.dot inter8.normal.neg = F.val (-1)
    ∧ Shader.computeColor ops0 .fast rayZ obj0 inter8 Rgba.WHITE scene0
        = Rgba.mk 0 0 0 255
    ∧ ((0 : ℚ) ≠ 255 * (-1)) := by
  refine ⟨?_, ?_, by norm_num⟩
  · norm_num [Vector.dot, Vector.neg, Vector.smul, F.add, F.mul, F.neg, rayZ, inter8,
      qp, qv]
  · norm_num [Shader.computeColor, Vector.dot, Vector.neg, Vector.smul, F.add, F.mul,
      F.neg, toU8, Rgba.fromRgb, Rgba.WHITE, rayZ, inter8, qp, qv]
    intro h
    exact absurd h (by decide)

/-- C8 (amended): the Fast stage multiplies each RGB channel by the facing
term `ray.dir · (-normal)` in `f32` and converts back with the saturating
`as u8` cast, so the result is clamped into `[0, 255]`: in particular any
non-positive facing term collapses all RGB channels to 0 (and the alpha is
rebuilt opaque), rather than preserving the unclamped product. -/
theorem C8_fast_saturates (ops : RealOps) (ray : Ray) (obj : Object)
    (inter : Intersection) (col : Rgba) (scene : Scene) (q : ℚ)
    (hdot : ray.dir.dot inter.normal.neg = F.val q) (hq : q ≤ 0) :
    Shader.computeColor ops .fast ray obj inter col scene = Rgba.mk 0 0 0 255 := by
  have hch : ∀ n : Fin 256, toU8 (.mul (.val ((n : ℕ) : ℚ)) (.val q)) = 0 := by
    intro n
    simp only [F.mul]
    exact toU8_nonpos (mul_nonpos_iff.mpr (Or.inl ⟨by positivity, hq⟩))
  simp only [Shader.computeColor, hdot, hch]
  rfl

/-- Witness for C8: the saturation theorem applies at the concrete inputs
of the counterexample, producing opaque black from white. -/
theorem C8_witness :
    Shader.computeColor ops0 .fast rayZ obj0 inter8 Rgba.WHITE scene0
      = Rgba.mk 0 0 0 255 :=
  C8_fast_saturates ops0 rayZ obj0 inter8 Rgba.WHITE scene0 (-1)
    (by norm_num [Vector.dot, Vector.neg, Vector.smul, F.add, F.mul, F.neg, rayZ, inter8,
      qp, qv])
    (by norm_num)

/-- C9: normalizing the zero vector raises nothing and deterministically
returns the all-NaN vector: the magnitude is exactly 0 and each component
becomes `0.0 / 0.0 = NaN`, whatever the interpretation of the irrational
operations. -/
theorem C9_normalize_zero_vector_nan (ops : RealOps) :
    Vector.ZERO.normalize ops = ⟨F.nan, F.nan, F.nan⟩ := by
  norm_num [Vector.ZERO, Vector.normalize, Vector.sdiv, Vector.magn, Vector.magn2,
    F.sqrtF, F.add, F.mul, F.div, F.sq]

/-- C10: the Fast stage rebuilds its output through `Rgba::from_rgb`, so the
alpha channel of its result is always `0xFF`, whatever the input color's
alpha. -/
theorem C10_fast_alpha_opaque (ops : RealOps) (ray : Ray) (obj : Object)
    (inter : Intersection) (col : Rgba) (scene : Scene) :
    (Shader.computeColor ops .fast ray obj inter col scene).a = 255 := rfl

end RT
